import Mathlib

/-
Verification development for the ratelimit-service repository: a shallow
embedding of the admission-control core (token-bucket state store, rate
limiter policy, round-trip admission pipeline, live configuration) together
with theorems about the claims of the specification.

Modelling conventions:
* Time is a Nat counting milliseconds on a monotone clock.  Go time.Time
  values become Nat timestamps; time.Duration values in milliseconds.
* Go int becomes Int (the programs values stay far from the 64-bit range,
  so wrap-around is unreachable and not modelled).
* The float64 arithmetic of RateLimiter.AbovePercentage is modelled
  faithfully: fl rounds an exact rational to the nearest IEEE binary64
  value (round to nearest, ties to even), and every conversion and
  arithmetic operation of the Go expression is followed by fl, as IEEE
  semantics prescribes.  The exponent is unbounded: all values reached
  in this development lie far inside the normal range, so overflow and
  subnormal rounding never occur.  A zero limit would put the Go code on
  NaN/Inf float paths, which are outside the model (and outside every
  claim relying on it).
* The token-bucket primitive (github.com/juju/ratelimit) is an external
  dependency whose source is not part of this repository.  Modelled from
  the spec: a bucket holds up to capacity tokens, refilling one token per
  elapsed fillIntervalMillis, capped at capacity; Available reads the
  refilled count, Take 1 consumes one token.
-/

/-- A token bucket, modelled from the spec description of the external
token-bucket primitive: up to capacity tokens, one token restored per
elapsed fill interval, capped at capacity. -/
structure Bucket where
  startMs : Nat
  fillIntervalMs : Nat
  capacity : Int
  availableTokens : Int
  latestTick : Nat
deriving DecidableEq

/-- Number of whole fill intervals elapsed since the bucket was created. -/
def Bucket.currentTick (b : Bucket) (nowMs : Nat) : Nat :=
  (nowMs - b.startMs) / b.fillIntervalMs

/-- Credit the tokens refilled since the last observation, capped at
capacity.  Mirrors the adjustment the bucket primitive performs at the
start of Available and Take. -/
def Bucket.adjust (b : Bucket) (nowMs : Nat) : Bucket :=
  let tick := b.currentTick nowMs
  { b with
    availableTokens :=
      min b.capacity (b.availableTokens + ((tick - b.latestTick : Nat) : Int))
    latestTick := tick }

/-- The bucket Available() call: refilled token count at time nowMs. -/
def Bucket.availableAt (b : Bucket) (nowMs : Nat) : Int :=
  (b.adjust nowMs).availableTokens

/-- Entry of the store (store.go): a bucket plus the last-touched
timestamp.  The Go zero time becomes timestamp 0. -/
structure Entry where
  bucket : Bucket
  updatedAt : Nat
deriving DecidableEq

/-- entry.Expired in store.go: true when now is strictly after
updatedAt + 30s (expireInSecs), in milliseconds. -/
def Entry.Expired (e : Entry) (nowMs : Nat) : Bool :=
  decide (e.updatedAt + 30000 < nowMs)

/-- newEntry in store.go: fill interval 1000/limit milliseconds (Go integer
division), a bucket created full at the current time. -/
def newEntry (limit : Int) (nowMs : Nat) : Entry :=
  { bucket :=
      { startMs := nowMs
        fillIntervalMs := (1000 / limit).toNat
        capacity := limit
        availableTokens := limit
        latestTick := 0 }
    updatedAt := 0 }

/-- newEntryWithDuration in store.go: the fill interval is the configured
duration in milliseconds. -/
def newEntryWithDuration (limit : Int) (duration : Int) (nowMs : Nat) : Entry :=
  { bucket :=
      { startMs := nowMs
        fillIntervalMs := duration.toNat
        capacity := limit
        availableTokens := limit
        latestTick := 0 }
    updatedAt := 0 }

/-- Lookup in the storage map (Go map read), as an association list. -/
def storageGet : List (String × Entry) → String → Option Entry
  | [], _ => none
  | (k, v) :: rest, key => if k = key then some v else storageGet rest key

/-- Write to the storage map (Go map assignment). -/
def storageSet : List (String × Entry) → String → Entry → List (String × Entry)
  | [], key, value => [(key, value)]
  | (k, v) :: rest, key, value =>
      if k = key then (key, value) :: rest else (k, v) :: storageSet rest key value

/-- InMemoryStore in store.go.  The mutex only serializes access and has no
sequential meaning; the storage map is an association list. -/
structure InMemoryStore where
  limit : Int
  duration : Int
  storage : List (String × Entry)
deriving DecidableEq

/-- NewStore in store.go: duration sentinel -1, empty map.  The eviction
goroutine it spawns is modelled separately as expiryStep. -/
def mkStore (limit : Int) : InMemoryStore :=
  { limit := limit, duration := -1, storage := [] }

/-- NewStoreWithDuration in store.go. -/
def mkStoreWithDuration (limit : Int) (duration : Int) : InMemoryStore :=
  { limit := limit, duration := duration, storage := [] }

/-- The entry InMemoryStore.Increment works on: the stored one, or a lazily
created fresh one when the key is absent (per the duration sentinel). -/
def incrementEntry (s : InMemoryStore) (key : String) (nowMs : Nat) : Entry :=
  match storageGet s.storage key with
  | some v => v
  | none =>
      if s.duration = -1 then newEntry s.limit nowMs
      else newEntryWithDuration s.limit s.duration nowMs

/-- InMemoryStore.Increment in store.go: fetch or lazily create the entry,
read the refilled availability; on zero, store the touched entry and report
failure with remaining 0 (Go: 0 and an error); otherwise take one token,
store the touched entry, and report the new availability.  The final
availability read happens through the shared bucket, hence after the take
and a second (idempotent at equal time) adjustment. -/
def InMemoryStore.Increment (s : InMemoryStore) (key : String) (nowMs : Nat) :
    (Int × Bool) × InMemoryStore :=
  let v : Entry := incrementEntry s key nowMs
  let b1 := v.bucket.adjust nowMs
  if b1.availableTokens = 0 then
    ((0, false), { s with storage := storageSet s.storage key ⟨b1, nowMs⟩ })
  else
    let b3 := Bucket.adjust { b1 with availableTokens := b1.availableTokens - 1 } nowMs
    ((b3.availableTokens, true), { s with storage := storageSet s.storage key ⟨b3, nowMs⟩ })

/-- InMemoryStore.Available in store.go (called GetAvailable at the
RateLimiter call site): current availability without consuming, 0 for an
unknown key. -/
def InMemoryStore.Available (s : InMemoryStore) (key : String) (nowMs : Nat) : Int :=
  match storageGet s.storage key with
  | none => 0
  | some v => v.bucket.availableAt nowMs

/-- InMemoryStore.Stats in store.go: snapshot of every tracked key with its
current availability. -/
def InMemoryStore.Stats (s : InMemoryStore) (nowMs : Nat) : List (String × Int) :=
  s.storage.map (fun kv => (kv.1, kv.2.bucket.availableAt nowMs))

/-- One tick of InMemoryStore.expiryCycle in store.go: delete every entry
whose Expired check holds at the tick time.  The 500 ms cadence of the
ticker is real-time scheduling and is not part of the state model. -/
def InMemoryStore.expiryStep (s : InMemoryStore) (nowMs : Nat) : InMemoryStore :=
  { s with storage := s.storage.filter (fun kv => ! kv.2.Expired nowMs) }

/-- Round a scaled value to an integer significand: nearest integer, the
even one at an exact half.  The inputs reached in this development lie in
[2^52, 2^53), the significand range of an IEEE binary64 value. -/
def roundSig (s : ℚ) : ℤ :=
  if s - ⌊s⌋ < 1 / 2 then ⌊s⌋
  else if 1 / 2 < s - ⌊s⌋ then ⌊s⌋ + 1
  else if ⌊s⌋ % 2 = 0 then ⌊s⌋ else ⌊s⌋ + 1

/-- The IEEE binary64 neighbour of a positive rational: scale by the power
of two that puts the value in [2^52, 2^53), round to the nearest integer
significand (ties to even), scale back. -/
def roundPos (q : ℚ) : ℚ :=
  (roundSig (q * 2 ^ (52 - Int.log 2 q)) : ℚ) * 2 ^ (Int.log 2 q - 52)

/-- IEEE binary64 rounding (round to nearest, ties to even) of a rational,
as the exact rational value of the resulting double.  The exponent is not
bounded: every value reached below is far inside the normal range, so
overflow and subnormal rounding never occur. -/
def fl (q : ℚ) : ℚ :=
  if q = 0 then 0
  else if 0 < q then roundPos q
  else -roundPos (-q)

/-- RateLimiter in the limiter source file.  The unused duration field of
the Go struct is dropped. -/
structure RateLimiter where
  store : InMemoryStore
deriving DecidableEq

/-- NewRateLimiter: a limiter over a fresh store with the given limit. -/
def NewRateLimiter (limit : Int) : RateLimiter :=
  { store := mkStore limit }

/-- RateLimiter.ExceedsLimit: increments (consuming a token when one is
available) and reports true exactly when the increment failed.  Returns the
limiter with the updated store. -/
def RateLimiter.ExceedsLimit (r : RateLimiter) (ip : String) (nowMs : Nat) :
    Bool × RateLimiter :=
  let res := r.store.Increment ip nowMs
  (! res.1.2, { store := res.2 })

/-- RateLimiter.AbovePercentage: whether the float64 evaluation of
available(ip) / limit * 100 is at least the float64 value of the
threshold.  Each conversion and operation of the Go expression rounds via
fl per IEEE semantics (the constant 100 is exactly representable); the
final comparison on doubles is exact.  A zero limit would take the Go
float division onto NaN/Inf paths that the rational model does not
reproduce (division by zero yields 0 in ℚ); no claim uses limit = 0. -/
def RateLimiter.AbovePercentage (r : RateLimiter) (ip : String)
    (limit : Int) (percentage : Int) (nowMs : Nat) : Bool :=
  let totalAvailable : ℚ := fl ((r.store.Available ip nowMs : ℚ))
  let availablePercent : ℚ := fl (fl (totalAvailable / fl ((limit : ℚ))) * 100)
  decide (availablePercent ≥ fl ((percentage : ℚ)))

/-- RateLimiter.GetStats: flattened store snapshot. -/
def RateLimiter.GetStats (r : RateLimiter) (nowMs : Nat) : List (String × Int) :=
  r.store.Stats nowMs

/-- Synthetic HTTP response of the pipeline: status code and body. -/
structure Response where
  status : Nat
  body : String
deriving DecidableEq

/-- Outcome of RateLimitedRoundTripper.RoundTrip in main.go, with the data
the claims are about: the returned response or error, whether the request
was forwarded to the upstream transport, and the milliseconds slept. -/
structure RTResult where
  res : Except String Response
  forwarded : Bool
  sleptMs : Int
  limiter : RateLimiter

/-- RateLimitedRoundTripper.RoundTrip in main.go.  The upstream transport
call is a parameter (its response or its error).  The hard gate runs first
and consumes a token; on rejection a 429 response is returned and nothing
is forwarded.  The soft gate runs second on the post-increment limiter.
On a transport error the error is returned at once; otherwise the
configured delay is slept exactly once and the upstream response returned
verbatim. -/
def RoundTrip (r : RateLimiter) (limitG percentageG delayG : Int)
    (ip : String) (nowMs : Nat) (upstream : Except String Response) : RTResult :=
  let gate := r.ExceedsLimit ip nowMs
  let r1 := gate.2
  if gate.1 then
    { res := .ok ⟨429, "Too many requests"⟩, forwarded := false, sleptMs := 0, limiter := r1 }
  else if ! r1.AbovePercentage ip limitG percentageG nowMs then
    { res := .ok ⟨429, "Requests below than percentage"⟩, forwarded := false, sleptMs := 0,
      limiter := r1 }
  else
    match upstream with
    | .error e => { res := .error e, forwarded := true, sleptMs := 0, limiter := r1 }
    | .ok resp => { res := .ok resp, forwarded := true, sleptMs := delayG, limiter := r1 }

/-- Live configuration state: the three mutable globals of main.go that
onTheFlyConfig updates.  The limiter rebuild on a successful LIMIT change
is tracked by the rebuilt flag. -/
structure Config where
  delay : Int
  limit : Int
  percentage : Int
deriving DecidableEq

/-- Digit-string value, or none when empty or holding a non-digit. -/
def digitsVal? (l : List Char) : Option Nat :=
  if l ≠ [] ∧ l.all (fun c => c.isDigit) then
    some (l.foldl (fun acc c => 10 * acc + (c.toNat - 48)) 0)
  else none

/-- Model of Go strconv.Atoi: optional sign followed by at least one digit;
anything else is a parse error.  (Overflow of 64-bit integers is out of the
modelled range.) -/
def atoi? (s : String) : Option Int :=
  match s.data with
  | '+' :: rest => (digitsVal? rest).map (fun n => (n : Int))
  | '-' :: rest => (digitsVal? rest).map (fun n => -(n : Int))
  | l => (digitsVal? l).map (fun n => (n : Int))

/-- onTheFlyConfig in main.go: each of DELAY, LIMIT, PERCENT is updated
independently when present (the empty string is how Go reports an absent
query parameter); a failed Atoi leaves the parameter at its previous value
(the Go code assigns the snapshot taken before any change, which equals the
current value since the parameters are written in this order).  The limiter
rebuild performed on a successful LIMIT change carries no state into the
Config values. -/
def onTheFlyConfig (cfg : Config) (delayVal rateLimitVal percentVal : String) : Config :=
  let cfg1 :=
    if delayVal ≠ "" then
      match atoi? delayVal with
      | some d => { cfg with delay := d }
      | none => cfg
    else cfg
  let cfg2 :=
    if rateLimitVal ≠ "" then
      match atoi? rateLimitVal with
      | some l => { cfg1 with limit := l }
      | none => cfg1
    else cfg1
  if percentVal ≠ "" then
    match atoi? percentVal with
    | some p => { cfg2 with percentage := p }
    | none => cfg2
  else cfg2

/-- Sequential store operations: an increment for a key at a time, or one
tick of the eviction sweep at a time. -/
inductive StoreOp where
  | incr (key : String) (nowMs : Nat)
  | sweep (nowMs : Nat)

/-- Apply one store operation (Available and Stats read without writing and
need no case here). -/
def applyOp (s : InMemoryStore) : StoreOp → InMemoryStore
  | .incr key nowMs => (s.Increment key nowMs).2
  | .sweep nowMs => s.expiryStep nowMs

/-- Apply a sequence of store operations in order. -/
def applyOps (s : InMemoryStore) (ops : List StoreOp) : InMemoryStore :=
  ops.foldl applyOp s

/-- Store well-formedness: positive configured limit, and every tracked
entry holds between 0 and capacity tokens with capacity equal to the
configured limit. -/
def InMemoryStore.WF (s : InMemoryStore) : Prop :=
  0 < s.limit ∧ ∀ kv ∈ s.storage,
    0 ≤ kv.2.bucket.availableTokens ∧
    kv.2.bucket.availableTokens ≤ kv.2.bucket.capacity ∧
    kv.2.bucket.capacity = s.limit

/-- Result of call number n (0-indexed) in a run of consecutive Increment
calls for one key against a fresh store with the given limit, all issued at
time 0 (so before any refill interval has elapsed). -/
def incrCalls (N : Int) (key : String) : Nat → (Int × Bool) × InMemoryStore
  | 0 => (mkStore N).Increment key 0
  | n + 1 => ((incrCalls N key n).2).Increment key 0

/-- Closed form of the store reached after the given number of consumed
tokens in such a run: one entry for the key, created at time 0, with
N - consumed tokens left. -/
def afterStore (N : Int) (key : String) (consumed : Int) : InMemoryStore :=
  { limit := N
    duration := -1
    storage := [(key, ⟨⟨0, (1000 / N).toNat, N, N - consumed, 0⟩, 0⟩)] }

/-
Interleaving model of InMemoryStore.Increment for the concurrency claim.
The Go method serializes only its individual shared accesses, not the whole
body: the map read (s.get) holds the read lock, each bucket call
(Available, Take) holds the bucket-internal mutex, and the map write
(s.set) holds the write lock.  Between the availability check and the take
no lock is held, and both goroutines act on the same shared entry pointer.
A thread executing the success path of Increment therefore performs three
atomic actions on the shared availableTokens counter (no refill elapses
during the run, so the adjustments are identities):
  pc 0: read the counter into a local (bucket.Available plus the zero test
        on the returned local copy);
  pc 1: branch on the local copy; when it is zero, finish with (0, false);
        otherwise decrement the shared counter (bucket.Take 1);
  pc 2: read the shared counter again and finish with it and success
        (the final bucket.Available of the return statement).
-/

/-- Thread-local state of one in-flight Increment call: program counter,
the availability read at the check, and the returned pair when finished. -/
structure TState where
  pc : Nat
  localAvail : Int
  result : Option (Int × Bool)
deriving DecidableEq

/-- One atomic action of an in-flight Increment call on the shared
availability counter, per the lock boundaries listed above. -/
def stepThread (t : TState) (avail : Int) : TState × Int :=
  match t.pc with
  | 0 => ({ t with pc := 1, localAvail := avail }, avail)
  | 1 =>
      if t.localAvail = 0 then ({ t with pc := 3, result := some (0, false) }, avail)
      else ({ t with pc := 2 }, avail - 1)
  | 2 => ({ t with pc := 3, result := some (avail, true) }, avail)
  | _ => (t, avail)

/-- Two concurrent Increment calls for the same key over the shared
counter. -/
structure RaceState where
  t1 : TState
  t2 : TState
  avail : Int
deriving DecidableEq

/-- Run a schedule: true steps the first call, false the second. -/
def raceRun : List Bool → RaceState → RaceState
  | [], s => s
  | b :: rest, s =>
      if b then
        let step := stepThread s.t1 s.avail
        raceRun rest { s with t1 := step.1, avail := step.2 }
      else
        let step := stepThread s.t2 s.avail
        raceRun rest { s with t2 := step.1, avail := step.2 }

/-- Both calls ready to run against a key with the given availability. -/
def initRace (avail : Int) : RaceState :=
  ⟨⟨0, 0, none⟩, ⟨0, 0, none⟩, avail⟩

/-- Whether the upstream transport call produced a response (rather than an
error). -/
def upstreamOk : Except String Response → Bool
  | .ok _ => true
  | .error _ => false

example : atoi? "5" = some 5 := by decide
example : atoi? "abc" = none := by decide
example : atoi? "-3" = some (-3) := by decide
example : atoi? "" = none := by decide

/-! Facts about binary64 rounding: a characterization of the exponent, the
two significand-rounding cases hit below, an evaluation rule for fl, sign
preservation, and the concrete values the claims need. -/

theorem int_log_eq {r : ℚ} {z : ℤ} (hr : 0 < r)
    (h1 : (2 : ℚ) ^ z ≤ r) (h2 : r < (2 : ℚ) ^ (z + 1)) :
    Int.log 2 r = z := by
  have hcast : ((2 : ℕ) : ℚ) = (2 : ℚ) := by norm_num
  have ha : z ≤ Int.log 2 r := by
    rw [← Int.zpow_le_iff_le_log (by norm_num) hr, hcast]
    exact h1
  have hb : Int.log 2 r < z + 1 := by
    rw [← Int.lt_zpow_iff_log_lt (by norm_num) hr, hcast]
    exact h2
  omega

theorem roundSig_eq_down (s : ℚ) (m : ℤ) (h1 : (m : ℚ) ≤ s)
    (h2 : s < (m : ℚ) + 1 / 2) : roundSig s = m := by
  have hf : ⌊s⌋ = m := Int.floor_eq_iff.mpr ⟨h1, by push_cast; linarith⟩
  unfold roundSig
  rw [hf, if_pos (by push_cast; linarith)]

theorem roundSig_eq_up (s : ℚ) (m : ℤ) (h1 : (m : ℚ) + 1 / 2 < s)
    (h2 : s < (m : ℚ) + 1) : roundSig s = m + 1 := by
  have hf : ⌊s⌋ = m := Int.floor_eq_iff.mpr ⟨by linarith, by push_cast; linarith⟩
  unfold roundSig
  rw [hf, if_neg (by push_cast; linarith), if_pos (by push_cast; linarith)]

theorem fl_eq_of {q r : ℚ} (z m : ℤ) (hq : 0 < q)
    (h1 : (2 : ℚ) ^ z ≤ q) (h2 : q < (2 : ℚ) ^ (z + 1))
    (hm : roundSig (q * 2 ^ (52 - z)) = m)
    (hr : (m : ℚ) * 2 ^ (z - 52) = r) :
    fl q = r := by
  unfold fl roundPos
  rw [if_neg hq.ne', if_pos hq, int_log_eq hq h1 h2, hm, hr]

theorem le_roundSig_self (s : ℚ) : ⌊s⌋ ≤ roundSig s := by
  unfold roundSig
  split_ifs <;> omega

theorem roundPos_pos {q : ℚ} (hq : 0 < q) : 0 < roundPos q := by
  have hcast : ((2 : ℕ) : ℚ) = (2 : ℚ) := by norm_num
  have hlow : (2 : ℚ) ^ Int.log 2 q ≤ q := by
    have h := Int.zpow_log_le_self (by norm_num : 1 < 2) hq
    rwa [hcast] at h
  have hsc : (1 : ℚ) ≤ q * 2 ^ (52 - Int.log 2 q) := by
    have hpow : (0 : ℚ) < 2 ^ (52 - Int.log 2 q) := by positivity
    have hmul : (2 : ℚ) ^ Int.log 2 q * 2 ^ (52 - Int.log 2 q) ≤
        q * 2 ^ (52 - Int.log 2 q) := mul_le_mul_of_nonneg_right hlow hpow.le
    have hid : (2 : ℚ) ^ Int.log 2 q * 2 ^ (52 - Int.log 2 q) = 2 ^ (52 : ℤ) := by
      rw [← zpow_add₀ (two_ne_zero)]
      ring_nf
    have hone : (1 : ℚ) ≤ 2 ^ (52 : ℤ) := by norm_num
    linarith
  have hfloor : (1 : ℤ) ≤ ⌊q * 2 ^ (52 - Int.log 2 q)⌋ := by
    rw [Int.le_floor]
    exact_mod_cast hsc
  have hsig : (1 : ℤ) ≤ roundSig (q * 2 ^ (52 - Int.log 2 q)) :=
    le_trans hfloor (le_roundSig_self _)
  unfold roundPos
  have h2p : (0 : ℚ) < 2 ^ (Int.log 2 q - 52) := by positivity
  have hsq : (0 : ℚ) < (roundSig (q * 2 ^ (52 - Int.log 2 q)) : ℚ) := by
    exact_mod_cast lt_of_lt_of_le Int.zero_lt_one hsig
  exact mul_pos hsq h2p

theorem fl_zero : fl 0 = 0 := by
  unfold fl
  simp

theorem fl_pos {q : ℚ} (h : 0 < q) : 0 < fl q := by
  unfold fl
  rw [if_neg h.ne', if_pos h]
  exact roundPos_pos h

theorem fl_neg_of_neg {q : ℚ} (h : q < 0) : fl q < 0 := by
  unfold fl
  rw [if_neg h.ne, if_neg (not_lt.mpr h.le)]
  have := roundPos_pos (neg_pos.mpr h)
  linarith

theorem fl_nonneg {q : ℚ} (h : 0 ≤ q) : 0 ≤ fl q := by
  rcases h.eq_or_lt with he | hlt
  · rw [← he, fl_zero]
  · exact (fl_pos hlt).le

theorem fl_nonpos {q : ℚ} (h : q ≤ 0) : fl q ≤ 0 := by
  rcases h.eq_or_lt with he | hlt
  · rw [he, fl_zero]
  · exact (fl_neg_of_neg hlt).le

theorem fl_q4 : fl (4 : ℚ) = 4 :=
  fl_eq_of 2 4503599627370496 (by norm_num) (by norm_num) (by norm_num)
    (roundSig_eq_down _ _ (by norm_num) (by norm_num)) (by norm_num)

theorem fl_q10 : fl (10 : ℚ) = 10 :=
  fl_eq_of 3 5629499534213120 (by norm_num) (by norm_num) (by norm_num)
    (roundSig_eq_down _ _ (by norm_num) (by norm_num)) (by norm_num)

theorem fl_q29 : fl (29 : ℚ) = 29 :=
  fl_eq_of 4 8162774324609024 (by norm_num) (by norm_num) (by norm_num)
    (roundSig_eq_down _ _ (by norm_num) (by norm_num)) (by norm_num)

theorem fl_q50 : fl (50 : ℚ) = 50 :=
  fl_eq_of 5 7036874417766400 (by norm_num) (by norm_num) (by norm_num)
    (roundSig_eq_down _ _ (by norm_num) (by norm_num)) (by norm_num)

theorem fl_q100 : fl (100 : ℚ) = 100 :=
  fl_eq_of 6 7036874417766400 (by norm_num) (by norm_num) (by norm_num)
    (roundSig_eq_down _ _ (by norm_num) (by norm_num)) (by norm_num)

/-- The double nearest 29/100 lies strictly below it: the significand
rounds down (fractional part 9/25 < 1/2). -/
theorem fl_29_over_100 : fl ((29 : ℚ) / 100) = 5224175567749775 / 2 ^ 54 :=
  fl_eq_of (-2) 5224175567749775 (by norm_num) (by norm_num) (by norm_num)
    (roundSig_eq_down _ _ (by norm_num) (by norm_num)) (by norm_num)

/-- Multiplying that double by 100 and rounding again lands one ulp below
29: the value Go prints as 28.999999999999996. -/
theorem fl_mul100_of_29 :
    fl ((5224175567749775 / 2 ^ 54 : ℚ) * 100) = 8162774324609023 / 2 ^ 48 :=
  fl_eq_of 4 8162774324609023 (by norm_num) (by norm_num) (by norm_num)
    (roundSig_eq_down _ _ (by norm_num) (by norm_num)) (by norm_num)

/-- The double nearest 2/5 lies strictly above it: the significand rounds
up (fractional part 3/5 > 1/2). -/
theorem fl_two_fifths : fl ((2 : ℚ) / 5) = 7205759403792794 / 2 ^ 54 := by
  have hm : roundSig ((2 : ℚ) / 5 * 2 ^ (52 - (-2) : ℤ)) = 7205759403792794 := by
    have h := roundSig_eq_up ((2 : ℚ) / 5 * 2 ^ (52 - (-2) : ℤ)) 7205759403792793
      (by norm_num) (by norm_num)
    rw [h]
    norm_num
  exact fl_eq_of (-2) 7205759403792794 (by norm_num) (by norm_num) (by norm_num) hm (by norm_num)

/-- Multiplying that double by 100 and rounding again gives exactly 40. -/
theorem fl_mul100_of_two_fifths :
    fl ((7205759403792794 / 2 ^ 54 : ℚ) * 100) = 40 :=
  fl_eq_of 5 5629499534213120 (by norm_num) (by norm_num) (by norm_num)
    (roundSig_eq_down _ _ (by norm_num) (by norm_num)) (by norm_num)

/-! Helper lemmas about the bucket and the storage map. -/

theorem Bucket.adjust_capacity (b : Bucket) (nowMs : Nat) :
    (b.adjust nowMs).capacity = b.capacity := rfl

theorem Bucket.adjust_le_capacity (b : Bucket) (nowMs : Nat) :
    (b.adjust nowMs).availableTokens ≤ b.capacity :=
  min_le_left _ _

theorem Bucket.adjust_nonneg (b : Bucket) (nowMs : Nat)
    (hc : 0 ≤ b.capacity) (ha : 0 ≤ b.availableTokens) :
    0 ≤ (b.adjust nowMs).availableTokens :=
  le_min hc (le_trans ha (by simp [Int.le_add_iff_sub_le]))

theorem storageGet_mem {l : List (String × Entry)} {key : String} {e : Entry}
    (h : storageGet l key = some e) : (key, e) ∈ l := by
  induction l with
  | nil => simp [storageGet] at h
  | cons kv rest ih =>
      obtain ⟨k, v⟩ := kv
      by_cases hk : k = key
      · subst hk
        simp [storageGet] at h
        simp [h]
      · simp [storageGet, hk] at h
        exact List.mem_cons_of_mem _ (ih h)

theorem mem_storageSet {l : List (String × Entry)} {key : String} {v : Entry}
    {kv : String × Entry} (h : kv ∈ storageSet l key v) :
    kv = (key, v) ∨ kv ∈ l := by
  induction l with
  | nil => simpa [storageSet] using h
  | cons hd rest ih =>
      obtain ⟨k, w⟩ := hd
      by_cases hk : k = key
      · subst hk
        simp [storageSet] at h
        rcases h with h | h
        · exact Or.inl h
        · exact Or.inr (List.mem_cons_of_mem _ h)
      · simp [storageSet, hk] at h
        rcases h with h | h
        · exact Or.inr (by simp [h])
        · rcases ih h with h2 | h2
          · exact Or.inl h2
          · exact Or.inr (List.mem_cons_of_mem _ h2)

theorem storageGet_eq_none_iff {l : List (String × Entry)} {key : String} :
    storageGet l key = none ↔ key ∉ l.map Prod.fst := by
  induction l with
  | nil => simp [storageGet]
  | cons hd rest ih =>
      obtain ⟨k, w⟩ := hd
      by_cases hk : k = key
      · subst hk
        simp [storageGet]
      · simp [storageGet, hk, ih, Ne.symm hk]

/-! Well-formedness of the store and its preservation by every operation. -/

theorem WF_mkStore (N : Int) (hN : 0 < N) : (mkStore N).WF := by
  refine ⟨hN, ?_⟩
  intro kv hkv
  simp [mkStore] at hkv

theorem Bucket.adjust_avail (b : Bucket) (nowMs : Nat) :
    (b.adjust nowMs).availableTokens =
      min b.capacity (b.availableTokens + ((b.currentTick nowMs - b.latestTick : Nat) : Int)) :=
  rfl

theorem increment_eq_fail (s : InMemoryStore) (key : String) (nowMs : Nat)
    (h : ((incrementEntry s key nowMs).bucket.adjust nowMs).availableTokens = 0) :
    s.Increment key nowMs =
      ((0, false),
        InMemoryStore.mk s.limit s.duration
          (storageSet s.storage key
            (Entry.mk ((incrementEntry s key nowMs).bucket.adjust nowMs) nowMs))) := by
  unfold InMemoryStore.Increment
  simp [h]

theorem increment_eq_succ (s : InMemoryStore) (key : String) (nowMs : Nat)
    (h : ¬ ((incrementEntry s key nowMs).bucket.adjust nowMs).availableTokens = 0) :
    s.Increment key nowMs =
      (let b3 := Bucket.adjust
          { (incrementEntry s key nowMs).bucket.adjust nowMs with
            availableTokens :=
              ((incrementEntry s key nowMs).bucket.adjust nowMs).availableTokens - 1 } nowMs
       ((b3.availableTokens, true),
        InMemoryStore.mk s.limit s.duration
          (storageSet s.storage key (Entry.mk b3 nowMs)))) := by
  unfold InMemoryStore.Increment
  simp [h]

theorem incrementEntry_bounds (s : InMemoryStore) (key : String) (nowMs : Nat)
    (h : s.WF) :
    0 ≤ (incrementEntry s key nowMs).bucket.availableTokens ∧
    (incrementEntry s key nowMs).bucket.availableTokens ≤
      (incrementEntry s key nowMs).bucket.capacity ∧
    (incrementEntry s key nowMs).bucket.capacity = s.limit := by
  obtain ⟨hlim, hmem⟩ := h
  unfold incrementEntry
  cases hg : storageGet s.storage key with
  | some e => exact hmem (key, e) (storageGet_mem hg)
  | none =>
      by_cases hd : s.duration = -1 <;>
        simp [hd, newEntry, newEntryWithDuration, le_refl, hlim.le]

theorem WF_increment (s : InMemoryStore) (key : String) (nowMs : Nat)
    (h : s.WF) : ((s.Increment key nowMs).2).WF := by
  have hvb := incrementEntry_bounds s key nowMs h
  obtain ⟨hlim, hmem⟩ := h
  obtain ⟨hv0, hv1, hv2⟩ := hvb
  by_cases hzero : ((incrementEntry s key nowMs).bucket.adjust nowMs).availableTokens = 0
  · rw [increment_eq_fail s key nowMs hzero]
    refine ⟨hlim, ?_⟩
    intro kv hkv
    rcases mem_storageSet hkv with rfl | hkv
    · refine ⟨?_, ?_, ?_⟩
      · dsimp only
        omega
      · dsimp only
        rw [Bucket.adjust_capacity]
        omega
      · dsimp only
        rw [Bucket.adjust_capacity]
        exact hv2
    · exact hmem kv hkv
  · rw [increment_eq_succ s key nowMs hzero]
    dsimp only
    refine ⟨hlim, ?_⟩
    intro kv hkv
    rcases mem_storageSet hkv with rfl | hkv
    · have h1 : 0 ≤ ((incrementEntry s key nowMs).bucket.adjust nowMs).availableTokens :=
        Bucket.adjust_nonneg _ _ (by omega) hv0
      refine ⟨?_, ?_, ?_⟩ <;> dsimp only <;> rw [Bucket.adjust_avail] <;>
        simp only [Bucket.adjust_capacity] <;> omega
    · exact hmem kv hkv

theorem WF_expiryStep (s : InMemoryStore) (nowMs : Nat) (h : s.WF) :
    (s.expiryStep nowMs).WF := by
  refine ⟨h.1, ?_⟩
  intro kv hkv
  exact h.2 kv (List.mem_of_mem_filter hkv)

theorem increment_limit (s : InMemoryStore) (key : String) (nowMs : Nat) :
    ((s.Increment key nowMs).2).limit = s.limit := by
  by_cases hzero : ((incrementEntry s key nowMs).bucket.adjust nowMs).availableTokens = 0
  · rw [increment_eq_fail s key nowMs hzero]
  · rw [increment_eq_succ s key nowMs hzero]

theorem expiryStep_limit (s : InMemoryStore) (nowMs : Nat) :
    (s.expiryStep nowMs).limit = s.limit := rfl

theorem applyOps_WF (s : InMemoryStore) (ops : List StoreOp) (h : s.WF) :
    (applyOps s ops).WF := by
  induction ops generalizing s with
  | nil => exact h
  | cons op rest ih =>
      cases op with
      | incr key nowMs => exact ih _ (WF_increment s key nowMs h)
      | sweep nowMs => exact ih _ (WF_expiryStep s nowMs h)

theorem applyOps_limit (s : InMemoryStore) (ops : List StoreOp) :
    (applyOps s ops).limit = s.limit := by
  induction ops generalizing s with
  | nil => rfl
  | cons op rest ih =>
      cases op with
      | incr key nowMs => rw [applyOps, List.foldl_cons]
                          exact (ih _).trans (increment_limit s key nowMs)
      | sweep nowMs => rw [applyOps, List.foldl_cons]
                       exact (ih _).trans (expiryStep_limit s nowMs)

theorem available_bounds (s : InMemoryStore) (key : String) (nowMs : Nat)
    (h : s.WF) : 0 ≤ s.Available key nowMs ∧ s.Available key nowMs ≤ s.limit := by
  obtain ⟨hlim, hmem⟩ := h
  unfold InMemoryStore.Available
  cases hg : storageGet s.storage key with
  | none => exact ⟨le_refl 0, hlim.le⟩
  | some e =>
      dsimp only
      have he := hmem (key, e) (storageGet_mem hg)
      dsimp only at he
      obtain ⟨he0, he1, he2⟩ := he
      constructor
      · exact Bucket.adjust_nonneg _ _ (by omega) he0
      · have := Bucket.adjust_le_capacity e.bucket nowMs
        unfold Bucket.availableAt
        omega

/-- Claim C6: for every key and after every sequence of store operations
(increment, available, stats, eviction sweep), available(key) lies in
[0, capacity]: it never goes negative and never exceeds the configured
limit, refill being capped at capacity.  (Available and Stats are pure
reads of the functional model and appear through the free choice of key
and read time.) -/
theorem claim_C6 (N : Int) (ops : List StoreOp) (key : String) (nowMs : Nat)
    (hN : 0 < N) :
    0 ≤ (applyOps (mkStore N) ops).Available key nowMs ∧
    (applyOps (mkStore N) ops).Available key nowMs ≤ N := by
  have hwf := applyOps_WF (mkStore N) ops (WF_mkStore N hN)
  have hb := available_bounds _ key nowMs hwf
  have hl : (applyOps (mkStore N) ops).limit = N := applyOps_limit (mkStore N) ops
  exact ⟨hb.1, le_trans hb.2 (le_of_eq hl)⟩

/-- Witness for C6 at a concrete run: limit 2, three increments and a
sweep, read at time 700. -/
theorem claim_C6_witness :
    0 ≤ (applyOps (mkStore 2) [StoreOp.incr "10.0.0.1" 0, StoreOp.incr "10.0.0.1" 0,
        StoreOp.incr "10.0.0.1" 600, StoreOp.sweep 40000]).Available "10.0.0.1" 700 ∧
    (applyOps (mkStore 2) [StoreOp.incr "10.0.0.1" 0, StoreOp.incr "10.0.0.1" 0,
        StoreOp.incr "10.0.0.1" 600, StoreOp.sweep 40000]).Available "10.0.0.1" 700 ≤ 2 :=
  claim_C6 2 [StoreOp.incr "10.0.0.1" 0, StoreOp.incr "10.0.0.1" 0,
    StoreOp.incr "10.0.0.1" 600, StoreOp.sweep 40000] "10.0.0.1" 700 (by decide)

/-- Counterexample to claim C3 as stated: with 29 of 100 tokens available
and threshold 29, the exact formula gives available/limit*100 = 29 ≥ 29,
so the claimed iff predicts true, but the code returns false: float64
computes 29/100 as a double strictly below 29/100, times 100 rounds to a
value one ulp below 29 (printed 28.999999999999996), and the comparison
against 29 fails. -/
theorem claim_C3_cex :
    RateLimiter.AbovePercentage
        ⟨InMemoryStore.mk 100 (-1) [("10.0.0.1", ⟨⟨0, 10, 100, 29, 0⟩, 0⟩)]⟩
        "10.0.0.1" 100 29 0 = false ∧
    ((InMemoryStore.mk 100 (-1)
        [("10.0.0.1", ⟨⟨0, 10, 100, 29, 0⟩, 0⟩)]).Available "10.0.0.1" 0 : ℚ) /
      (100 : ℚ) * 100 ≥ (29 : ℚ) := by
  have hav : (InMemoryStore.mk 100 (-1)
      [("10.0.0.1", ⟨⟨0, 10, 100, 29, 0⟩, 0⟩)]).Available "10.0.0.1" 0 = 29 := by decide
  constructor
  · simp only [RateLimiter.AbovePercentage, hav]
    push_cast
    rw [fl_q29, fl_q100, show (29 : ℚ) / 100 = 29 / 100 from rfl, fl_29_over_100,
      fl_mul100_of_29]
    simp only [decide_eq_false_iff_not, ge_iff_le, not_le]
    norm_num
  · rw [hav]
    push_cast
    norm_num

/-- Claim C3, amended: abovePercentage returns true exactly when the
float64 evaluation of available(key) / limit * 100 (every operation
rounded to the nearest binary64 value) is at least the float64 value of
the threshold.  This agrees with the exact formula except where rounding
crosses the threshold at exact-boundary inputs (see the counterexample at
29 of 100 against threshold 29).  In the spec scenario (threshold 50,
limit 10, six tokens consumed so four remain = 40 percent, computed
exactly as 40.0 in float64 too) the request is judged below the
threshold. -/
theorem claim_C3 (r : RateLimiter) (ip : String) (limitG p : Int) (nowMs : Nat)
    (hlim : 0 < limitG) :
    (r.AbovePercentage ip limitG p nowMs = true ↔
      fl (fl (fl ((r.store.Available ip nowMs : ℚ)) / fl ((limitG : ℚ))) * 100) ≥
        fl ((p : ℚ))) ∧
    RateLimiter.AbovePercentage ⟨(incrCalls 10 "10.0.0.1" 5).2⟩ "10.0.0.1" 10 50 0 = false := by
  constructor
  · simp [RateLimiter.AbovePercentage]
  · have hav : InMemoryStore.Available (incrCalls 10 "10.0.0.1" 5).2 "10.0.0.1" 0 = 4 := by
      decide
    simp only [RateLimiter.AbovePercentage, hav]
    push_cast
    rw [fl_q4, fl_q10, show (4 : ℚ) / 10 = 2 / 5 by norm_num, fl_two_fifths,
      fl_mul100_of_two_fifths, fl_q50]
    simp only [decide_eq_false_iff_not, ge_iff_le, not_le]
    norm_num

/-- Witness for the amended C3 on a fresh store with limit 10 at
threshold 50. -/
theorem claim_C3_witness :
    RateLimiter.AbovePercentage ⟨mkStore 10⟩ "10.0.0.2" 10 50 0 = true ↔
      fl (fl (fl ((InMemoryStore.Available (mkStore 10) "10.0.0.2" 0 : ℚ)) /
          fl (((10 : Int) : ℚ))) * 100) ≥ fl (((50 : Int) : ℚ)) :=
  (claim_C3 ⟨mkStore 10⟩ "10.0.0.2" 10 50 0 (by decide)).1

/-- Counterexample to claim C4 as stated: with limit -5 (which is ≤ 0) and
threshold 50 on an untracked key (availability 0), AbovePercentage returns
false, not the claimed reject-safe default true.  The Go float64 run of
this input computes (0 / -5) * 100 = -0.0 and -0.0 ≥ 50 is false, exactly
as the rational model does. -/
theorem claim_C4_cex :
    RateLimiter.AbovePercentage ⟨mkStore 10⟩ "10.0.0.1" (-5) 50 0 = false := by
  have hav : InMemoryStore.Available (mkStore 10) "10.0.0.1" 0 = 0 := by decide
  simp only [RateLimiter.AbovePercentage, hav]
  push_cast
  rw [fl_zero, zero_div, fl_zero, zero_mul, fl_zero, fl_q50]
  simp only [decide_eq_false_iff_not, ge_iff_le, not_le]
  norm_num

/-- Claim C4, amended: for every negative limit and positive threshold,
abovePercentage neither crashes nor divides by zero, but it returns the
plain formula result, which is false whenever the key availability is
nonnegative (every rounding step preserves the sign, so the computed
percentage is nonpositive and the positive threshold wins); there is no
reject-safe constant-true default.  (Limit exactly 0 puts the Go float64
computation on NaN/Inf paths outside the rational model; the NaN
comparison there is also false, never the claimed true.) -/
theorem claim_C4 (r : RateLimiter) (ip : String) (limitG p : Int) (nowMs : Nat)
    (hlim : limitG < 0) (hp : 0 < p) (hav : 0 ≤ r.store.Available ip nowMs) :
    r.AbovePercentage ip limitG p nowMs = false := by
  simp only [RateLimiter.AbovePercentage, decide_eq_false_iff_not, not_le, ge_iff_le]
  have h1 : (0 : ℚ) ≤ fl ((r.store.Available ip nowMs : ℚ)) :=
    fl_nonneg (by exact_mod_cast hav)
  have h2 : fl ((limitG : ℚ)) < 0 := fl_neg_of_neg (by exact_mod_cast hlim)
  have h3 : fl ((r.store.Available ip nowMs : ℚ)) / fl ((limitG : ℚ)) ≤ 0 :=
    div_nonpos_of_nonneg_of_nonpos h1 h2.le
  have h4 : fl (fl ((r.store.Available ip nowMs : ℚ)) / fl ((limitG : ℚ))) ≤ 0 :=
    fl_nonpos h3
  have h5 : fl (fl ((r.store.Available ip nowMs : ℚ)) / fl ((limitG : ℚ))) * 100 ≤ 0 := by
    nlinarith
  have h6 : fl (fl (fl ((r.store.Available ip nowMs : ℚ)) / fl ((limitG : ℚ))) * 100) ≤ 0 :=
    fl_nonpos h5
  have h7 : (0 : ℚ) < fl ((p : ℚ)) := fl_pos (by exact_mod_cast hp)
  linarith

/-- Witness for the amended C4 at limit -7, threshold 3, untracked key. -/
theorem claim_C4_witness :
    RateLimiter.AbovePercentage ⟨mkStore 10⟩ "10.0.0.3" (-7) 3 0 = false :=
  claim_C4 ⟨mkStore 10⟩ "10.0.0.3" (-7) 3 0 (by decide) (by decide) (by decide)

/-- Counterexample to claim C5 as stated: LIMIT=-3 is not a positive
integer, hence invalid per the claim, yet onTheFlyConfig applies it and
changes the limit from 5 to -3 instead of leaving it unchanged. -/
theorem claim_C5_cex :
    onTheFlyConfig ⟨10, 5, 0⟩ "" "-3" "" = ⟨10, -3, 0⟩ := by
  decide

/-- Claim C5, amended: a supplied override that fails integer parsing
leaves its parameter unchanged at the previous value, atomically per
parameter and without crash; range restrictions are not enforced (any
string Atoi accepts is applied, e.g. a negative LIMIT).  In particular
applying LIMIT=5 then LIMIT=abc yields an effective limit of 5. -/
theorem claim_C5 (cfg : Config) (dv lv pv : String) :
    ((atoi? dv = none → (onTheFlyConfig cfg dv lv pv).delay = cfg.delay) ∧
     (atoi? lv = none → (onTheFlyConfig cfg dv lv pv).limit = cfg.limit) ∧
     (atoi? pv = none → (onTheFlyConfig cfg dv lv pv).percentage = cfg.percentage)) ∧
    (onTheFlyConfig (onTheFlyConfig ⟨10, 2, 0⟩ "" "5" "") "" "abc" "").limit = 5 := by
  refine ⟨⟨?_, ?_, ?_⟩, by decide⟩ <;>
    intro h <;>
    unfold onTheFlyConfig <;>
    repeat' first
      | rfl
      | (split <;> try rfl)
      | simp_all

/-- Witness for the amended C5 with three malformed overrides. -/
theorem claim_C5_witness :
    (onTheFlyConfig ⟨1, 2, 3⟩ "x" "y" "z").delay = 1 ∧
    (onTheFlyConfig ⟨1, 2, 3⟩ "x" "y" "z").limit = 2 ∧
    (onTheFlyConfig ⟨1, 2, 3⟩ "x" "y" "z").percentage = 3 ∧
    (onTheFlyConfig (onTheFlyConfig ⟨10, 2, 0⟩ "" "5" "") "" "abc" "").limit = 5 := by
  have h := claim_C5 ⟨1, 2, 3⟩ "x" "y" "z"
  exact ⟨h.1.1 (by decide), h.1.2.1 (by decide), h.1.2.2 (by decide), h.2⟩

/-- Claim C7: the artificial latency is applied at the single point after a
successful upstream round trip: the slept milliseconds equal the configured
delay exactly when the request passed both gates and the upstream call
returned a response, and 0 on every other path (both rejections return
without sleeping; a transport error propagates without sleeping). -/
theorem claim_C7 (r : RateLimiter) (limitG percentageG delayG : Int)
    (ip : String) (nowMs : Nat) (upstream : Except String Response) :
    (RoundTrip r limitG percentageG delayG ip nowMs upstream).sleptMs =
      (if (RoundTrip r limitG percentageG delayG ip nowMs upstream).forwarded &&
          upstreamOk upstream then delayG else 0) := by
  unfold RoundTrip
  by_cases h1 : (r.ExceedsLimit ip nowMs).1 = true
  · simp [h1]
  · by_cases h2 :
        (r.ExceedsLimit ip nowMs).2.AbovePercentage ip limitG percentageG nowMs = true
    · cases upstream <;> simp [h1, h2, upstreamOk]
    · simp [h1, h2]

/-- Claim C9 evidence: the availability check and the token take of
Increment are separate atomic actions (the read lock is released between
the map read and the map write, and each bucket call locks only itself).
Interleaving two Increment calls for the same key holding one last token as
read-read-take-take lets both calls return success with the shared
availability driven to -1 (a lost update), while the serialized schedule
matches the sequential semantics: one success and one empty-bucket
failure, exactly as two sequential Increment calls against a one-token
store. -/
theorem claim_C9_race :
    (raceRun [true, false, true, false, true, false] (initRace 1)).t1.result =
        some (-1, true) ∧
    (raceRun [true, false, true, false, true, false] (initRace 1)).t2.result =
        some (-1, true) ∧
    (raceRun [true, false, true, false, true, false] (initRace 1)).avail = -1 ∧
    (raceRun [true, true, true, false, false, false] (initRace 1)).t1.result =
        some (0, true) ∧
    (raceRun [true, true, true, false, false, false] (initRace 1)).t2.result =
        some (0, false) ∧
    (incrCalls 1 "10.0.0.1" 0).1 = (0, true) ∧
    (incrCalls 1 "10.0.0.1" 1).1 = (0, false) := by
  decide

/-- Adjusting a bucket created at time 0 and never refilled, again at time
0, changes nothing: no fill interval has elapsed. -/
theorem adjust_zero (f : Nat) (L A : Int) (hA : A ≤ L) :
    Bucket.adjust ⟨0, f, L, A, 0⟩ 0 = ⟨0, f, L, A, 0⟩ := by
  unfold Bucket.adjust Bucket.currentTick
  simp [min_eq_right hA]

/-- A store whose working entry for the key at time 0 is a fresh-shaped
bucket with A of L tokens, 1 ≤ A ≤ L: Increment succeeds, reports A - 1
remaining, and writes back the decremented entry touched at time 0. -/
theorem increment_succ_general (s : InMemoryStore) (key : String) (f : Nat) (L A : Int)
    (hg : incrementEntry s key 0 = ⟨⟨0, f, L, A, 0⟩, 0⟩)
    (h1 : 1 ≤ A) (h2 : A ≤ L) :
    s.Increment key 0 =
      ((A - 1, true),
        InMemoryStore.mk s.limit s.duration
          (storageSet s.storage key ⟨⟨0, f, L, A - 1, 0⟩, 0⟩)) := by
  have hadj := adjust_zero f L A h2
  have hadj2 := adjust_zero f L (A - 1) (by omega)
  have hne : ¬ ((incrementEntry s key 0).bucket.adjust 0).availableTokens = 0 := by
    rw [hg]
    dsimp only
    rw [hadj]
    dsimp only
    omega
  rw [increment_eq_succ _ _ _ hne]
  dsimp only
  rw [hg]
  dsimp only
  rw [hadj]
  dsimp only
  rw [hadj2]

/-- A store whose working entry for the key at time 0 is a fresh-shaped
exhausted bucket (0 of L tokens): Increment fails with remaining 0 and
writes back the touched entry unchanged. -/
theorem increment_fail_general (s : InMemoryStore) (key : String) (f : Nat) (L : Int)
    (hL : 0 ≤ L)
    (hg : incrementEntry s key 0 = ⟨⟨0, f, L, 0, 0⟩, 0⟩) :
    s.Increment key 0 =
      ((0, false),
        InMemoryStore.mk s.limit s.duration
          (storageSet s.storage key ⟨⟨0, f, L, 0, 0⟩, 0⟩)) := by
  have hadj := adjust_zero f L 0 hL
  have hzero : ((incrementEntry s key 0).bucket.adjust 0).availableTokens = 0 := by
    rw [hg]
    dsimp only
    rw [hadj]
  rw [increment_eq_fail _ _ _ hzero]
  simp only [hg]
  rw [hadj]

/-- First Increment for a key against a fresh store with positive limit N
at time 0: succeeds with N - 1 remaining and creates the entry. -/
theorem increment_fresh (N : Int) (key : String) (h : 0 < N) :
    (mkStore N).Increment key 0 = ((N - 1, true), afterStore N key 1) := by
  have hg : incrementEntry (mkStore N) key 0 = ⟨⟨0, (1000 / N).toNat, N, N, 0⟩, 0⟩ := by
    unfold incrementEntry mkStore newEntry
    simp [storageGet]
  have := increment_succ_general (mkStore N) key ((1000 / N).toNat) N N hg (by omega) le_rfl
  rw [this]
  unfold afterStore mkStore storageSet
  simp

/-- Increment number i + 1 (0-indexed i tokens already consumed, i < N) of
the same run: succeeds with N - i - 1 remaining. -/
theorem increment_mid (N : Int) (key : String) (i : Int) (h0 : 0 ≤ i) (hi : i < N) :
    (afterStore N key i).Increment key 0 =
      ((N - i - 1, true), afterStore N key (i + 1)) := by
  have hg : incrementEntry (afterStore N key i) key 0 =
      ⟨⟨0, (1000 / N).toNat, N, N - i, 0⟩, 0⟩ := by
    unfold incrementEntry afterStore
    simp [storageGet]
  have := increment_succ_general (afterStore N key i) key ((1000 / N).toNat) N (N - i) hg
    (by omega) (by omega)
  rw [this]
  have harith : N - i - 1 = N - (i + 1) := by ring
  rw [harith]
  unfold afterStore storageSet
  simp

/-- Increment against the exhausted store of the run (N tokens consumed):
fails with remaining 0 and leaves the store unchanged. -/
theorem increment_last (N : Int) (key : String) (h : 0 ≤ N) :
    (afterStore N key N).Increment key 0 = ((0, false), afterStore N key N) := by
  have hg : incrementEntry (afterStore N key N) key 0 =
      ⟨⟨0, (1000 / N).toNat, N, 0, 0⟩, 0⟩ := by
    unfold incrementEntry afterStore
    simp [storageGet]
  have := increment_fail_general (afterStore N key N) key ((1000 / N).toNat) N h hg
  rw [this]
  unfold afterStore storageSet
  simp

/-- Closed form of the run of consecutive Increment calls: while fewer than
N calls have completed, call i succeeds with N - 1 - i remaining and leaves
the store holding N - (i + 1) tokens for the key. -/
theorem incrCalls_closed (N : Int) (key : String) (hN : 0 < N) (i : Nat)
    (h : (i : Int) < N) :
    incrCalls N key i = ((N - 1 - i, true), afterStore N key ((i : Int) + 1)) := by
  induction i with
  | zero =>
      show (mkStore N).Increment key 0 = _
      rw [increment_fresh N key hN]
      norm_num
  | succ n ih =>
      have hn : (n : Int) < N := by push_cast at h ⊢; omega
      show ((incrCalls N key n).2).Increment key 0 = _
      rw [ih hn]
      have hmid := increment_mid N key ((n : Int) + 1) (by positivity) (by push_cast at h ⊢; omega)
      rw [hmid]
      push_cast
      have harith : N - ((n : Int) + 1) - 1 = N - 1 - ((n : Int) + 1) := by ring
      rw [harith]

/-- Claim C1: for every positive limit N and every key, on a freshly
constructed store the first N consecutive increment calls all succeed,
each consuming one token (call i reports N - 1 - i remaining), and the
(N+1)th call fails with remaining 0 when issued before any refill interval
has elapsed (all calls at time 0 here). -/
theorem claim_C1 (N : Int) (hN : 0 < N) (key : String) :
    (∀ i : Nat, (i : Int) < N → (incrCalls N key i).1 = (N - 1 - i, true)) ∧
    (incrCalls N key N.toNat).1 = (0, false) := by
  constructor
  · intro i h
    rw [incrCalls_closed N key hN i h]
  · have h1 : N.toNat = (N.toNat - 1) + 1 := by omega
    rw [h1]
    show (((incrCalls N key (N.toNat - 1)).2).Increment key 0).1 = (0, false)
    have hprev : ((N.toNat - 1 : Nat) : Int) < N := by omega
    rw [incrCalls_closed N key hN _ hprev]
    have h2 : ((N.toNat - 1 : Nat) : Int) + 1 = N := by omega
    rw [h2, increment_last N key hN.le]

/-- Witness for C1 with limit 3: the third call still succeeds (0 left) and
the fourth fails. -/
theorem claim_C1_witness :
    (0 : Int) < 3 ∧ (incrCalls 3 "10.0.0.1" 2).1 = (0, true) ∧
      (incrCalls 3 "10.0.0.1" 3).1 = (0, false) := by
  refine ⟨by decide, ?_, ?_⟩
  · have h := (claim_C1 3 (by decide) "10.0.0.1").1 2 (by decide)
    simpa using h
  · have h := (claim_C1 3 (by decide) "10.0.0.1").2
    simpa using h

/-- The pipeline on a store holding A of L tokens for the requesting key
(no refill elapsed): the soft rejection is produced exactly when the
float64 evaluation of (A - 1) / L * 100 — the availability left after the
hard gate consumed this request over the limit — is below the float64
threshold. -/
theorem roundTrip_soft_iff (A L p delayG : Int) (f : Nat) (ip : String)
    (upstream : Except String Response)
    (hA1 : 1 ≤ A) (hAL : A ≤ L) :
    ((RoundTrip ⟨⟨L, -1, [(ip, ⟨⟨0, f, L, A, 0⟩, 0⟩)]⟩⟩ L p delayG ip 0 upstream).res =
        Except.ok ⟨429, "Requests below than percentage"⟩ ∧
     (RoundTrip ⟨⟨L, -1, [(ip, ⟨⟨0, f, L, A, 0⟩, 0⟩)]⟩⟩ L p delayG ip 0 upstream).forwarded =
        false) ↔
      ¬(fl (fl (fl (((A - 1 : Int) : ℚ)) / fl ((L : ℚ))) * 100) ≥ fl ((p : ℚ))) := by
  have hg : incrementEntry ⟨L, -1, [(ip, ⟨⟨0, f, L, A, 0⟩, 0⟩)]⟩ ip 0 =
      ⟨⟨0, f, L, A, 0⟩, 0⟩ := by
    unfold incrementEntry
    simp [storageGet]
  have hinc : InMemoryStore.Increment ⟨L, -1, [(ip, ⟨⟨0, f, L, A, 0⟩, 0⟩)]⟩ ip 0 =
      ((A - 1, true), ⟨L, -1, [(ip, ⟨⟨0, f, L, A - 1, 0⟩, 0⟩)]⟩) := by
    rw [increment_succ_general _ ip f L A hg hA1 hAL]
    simp [storageSet]
  have hEx : RateLimiter.ExceedsLimit ⟨⟨L, -1, [(ip, ⟨⟨0, f, L, A, 0⟩, 0⟩)]⟩⟩ ip 0 =
      (false, ⟨⟨L, -1, [(ip, ⟨⟨0, f, L, A - 1, 0⟩, 0⟩)]⟩⟩) := by
    simp [RateLimiter.ExceedsLimit, hinc]
  have hav : InMemoryStore.Available ⟨L, -1, [(ip, ⟨⟨0, f, L, A - 1, 0⟩, 0⟩)]⟩ ip 0 = A - 1 := by
    unfold InMemoryStore.Available Bucket.availableAt
    simp [storageGet, adjust_zero f L (A - 1) (by omega)]
  by_cases hc : fl (fl (fl (((A - 1 : Int) : ℚ)) / fl ((L : ℚ))) * 100) ≥ fl ((p : ℚ))
  · have habove : RateLimiter.AbovePercentage ⟨⟨L, -1, [(ip, ⟨⟨0, f, L, A - 1, 0⟩, 0⟩)]⟩⟩
        ip L p 0 = true := by
      simp only [RateLimiter.AbovePercentage, hav, decide_eq_true_eq]
      exact hc
    push_cast at hc
    simp only [RoundTrip, hEx, habove]
    cases upstream <;> simp [hc]
  · have hbelow : RateLimiter.AbovePercentage ⟨⟨L, -1, [(ip, ⟨⟨0, f, L, A - 1, 0⟩, 0⟩)]⟩⟩
        ip L p 0 = false := by
      simp only [RateLimiter.AbovePercentage, hav, decide_eq_false_iff_not]
      exact hc
    push_cast at hc
    simp only [RoundTrip, hEx, hbelow]
    simp [hc]

/-- Counterexample to claim C10 as stated: the claimed comparison of the
exact (A - 1) * 100 / L against the threshold predicts no soft rejection
for a key holding A = 30 of L = 100 tokens at threshold 29 (the exact
post-consumption percentage is exactly 29), yet the pipeline soft-rejects
the request: the float64 gate computes 28.999999999999996 < 29. -/
theorem claim_C10_cex :
    (RoundTrip ⟨⟨100, -1, [("10.0.0.8", ⟨⟨0, 10, 100, 30, 0⟩, 0⟩)]⟩⟩ 100 29 0
        "10.0.0.8" 0 (Except.ok ⟨200, "hello"⟩)).res =
      Except.ok ⟨429, "Requests below than percentage"⟩ ∧
    (((30 - 1 : Int) : ℚ) / (100 : ℚ) * 100 ≥ (29 : ℚ)) := by
  have hneg : ¬(fl (fl (fl (((30 - 1 : Int) : ℚ)) / fl (((100 : Int) : ℚ))) * 100) ≥
      fl (((29 : Int) : ℚ))) := by
    rw [show (((30 - 1 : Int)) : ℚ) = 29 by norm_num, show (((100 : Int)) : ℚ) = 100 by norm_num,
      show (((29 : Int)) : ℚ) = 29 by norm_num, fl_q29, fl_q100, fl_29_over_100, fl_mul100_of_29]
    norm_num
  refine ⟨((roundTrip_soft_iff 30 100 29 0 10 "10.0.0.8" (Except.ok ⟨200, "hello"⟩)
    (by decide) (by decide)).mpr hneg).1, by push_cast; norm_num⟩

/-- Claim C10, amended: the soft percentage gate reads availability after
the hard gate has already consumed the current request token: on a store
holding A tokens for the key (1 ≤ A ≤ L, limit L > 0, no refill), the soft
rejection occurs exactly when the float64 evaluation of (A - 1) / L * 100
— not of A / L * 100 — is below the float64 threshold.  At exact-boundary
inputs the rounded comparison may differ from the exact one (see the
counterexample at A = 30, L = 100, threshold 29).  With A = 5, L = 10,
threshold 50 the request is rejected (the float64 percentage is exactly
40) even though the pre-consumption percentage 5 / 10 * 100 = 50 meets the
threshold. -/
theorem claim_C10 (A L p delayG : Int) (f : Nat) (ip : String)
    (upstream : Except String Response)
    (hA1 : 1 ≤ A) (hAL : A ≤ L) (hL : 0 < L) :
    (((RoundTrip ⟨⟨L, -1, [(ip, ⟨⟨0, f, L, A, 0⟩, 0⟩)]⟩⟩ L p delayG ip 0 upstream).res =
        Except.ok ⟨429, "Requests below than percentage"⟩ ∧
      (RoundTrip ⟨⟨L, -1, [(ip, ⟨⟨0, f, L, A, 0⟩, 0⟩)]⟩⟩ L p delayG ip 0 upstream).forwarded =
        false) ↔
      ¬(fl (fl (fl (((A - 1 : Int) : ℚ)) / fl ((L : ℚ))) * 100) ≥ fl ((p : ℚ)))) ∧
    (RoundTrip ⟨⟨10, -1, [("10.0.0.9", ⟨⟨0, 100, 10, 5, 0⟩, 0⟩)]⟩⟩ 10 50 delayG
        "10.0.0.9" 0 upstream).res = Except.ok ⟨429, "Requests below than percentage"⟩ ∧
    ((5 : ℚ) / (10 : ℚ) * 100 ≥ (50 : ℚ)) := by
  have hneg : ¬(fl (fl (fl (((5 - 1 : Int) : ℚ)) / fl (((10 : Int) : ℚ))) * 100) ≥
      fl (((50 : Int) : ℚ))) := by
    rw [show (((5 - 1 : Int)) : ℚ) = 4 by norm_num, show (((10 : Int)) : ℚ) = 10 by norm_num,
      show (((50 : Int)) : ℚ) = 50 by norm_num, fl_q4, fl_q10,
      show (4 : ℚ) / 10 = 2 / 5 by norm_num, fl_two_fifths, fl_mul100_of_two_fifths, fl_q50]
    norm_num
  refine ⟨roundTrip_soft_iff A L p delayG f ip upstream hA1 hAL, ?_, by norm_num⟩
  exact ((roundTrip_soft_iff 5 10 50 delayG 100 "10.0.0.9" upstream (by decide)
    (by decide)).mpr hneg).1

/-- Witness for the amended C10 at the spec scenario values. -/
theorem claim_C10_witness :
    (RoundTrip ⟨⟨10, -1, [("10.0.0.9", ⟨⟨0, 100, 10, 5, 0⟩, 0⟩)]⟩⟩ 10 50 3
        "10.0.0.9" 0 (Except.ok ⟨200, "hello"⟩)).res =
      Except.ok ⟨429, "Requests below than percentage"⟩ :=
  (claim_C10 5 10 50 3 100 "10.0.0.9" (Except.ok ⟨200, "hello"⟩)
    (by decide) (by decide) (by decide)).2.1

/-- With a nonpositive threshold, a positive limit and nonnegative
availability, the percentage check always passes. -/
theorem abovePercentage_nonpos (r : RateLimiter) (ip : String) (limitG p : Int)
    (nowMs : Nat) (hp : p ≤ 0) (hl : 0 < limitG)
    (hav : 0 ≤ r.store.Available ip nowMs) :
    r.AbovePercentage ip limitG p nowMs = true := by
  simp only [RateLimiter.AbovePercentage, decide_eq_true_eq, ge_iff_le]
  have h1 : (0 : ℚ) ≤ fl ((r.store.Available ip nowMs : ℚ)) :=
    fl_nonneg (by exact_mod_cast hav)
  have h2 : (0 : ℚ) < fl ((limitG : ℚ)) := fl_pos (by exact_mod_cast hl)
  have h3 : (0 : ℚ) ≤ fl ((r.store.Available ip nowMs : ℚ)) / fl ((limitG : ℚ)) :=
    div_nonneg h1 h2.le
  have h4 : (0 : ℚ) ≤ fl (fl ((r.store.Available ip nowMs : ℚ)) / fl ((limitG : ℚ))) :=
    fl_nonneg h3
  have h5 : (0 : ℚ) ≤ fl (fl ((r.store.Available ip nowMs : ℚ)) / fl ((limitG : ℚ))) * 100 := by
    nlinarith
  have h6 : (0 : ℚ) ≤ fl (fl (fl ((r.store.Available ip nowMs : ℚ)) / fl ((limitG : ℚ))) * 100) :=
    fl_nonneg h5
  have h7 : fl ((p : ℚ)) ≤ 0 := fl_nonpos (by exact_mod_cast hp)
  linarith

/-- Claim C2: the pipeline evaluates the hard gate first; when it trips,
the exact 429 response with body Too many requests is returned and nothing
is forwarded.  Otherwise a soft 429 with body Requests below than
percentage is returned (and nothing forwarded) only when the percentage
check fails, which forces percentageThreshold > 0 on a well-formed store
with positive limit; otherwise the request is forwarded and the upstream
outcome returned verbatim. -/
theorem claim_C2 (r : RateLimiter) (limitG percentageG delayG : Int) (ip : String)
    (nowMs : Nat) (upstream : Except String Response)
    (hWF : r.store.WF) (hlim : 0 < limitG) :
    ((r.ExceedsLimit ip nowMs).1 = true →
      (RoundTrip r limitG percentageG delayG ip nowMs upstream).res =
          Except.ok ⟨429, "Too many requests"⟩ ∧
      (RoundTrip r limitG percentageG delayG ip nowMs upstream).forwarded = false) ∧
    ((r.ExceedsLimit ip nowMs).1 = false →
      (r.ExceedsLimit ip nowMs).2.AbovePercentage ip limitG percentageG nowMs = false →
      (RoundTrip r limitG percentageG delayG ip nowMs upstream).res =
          Except.ok ⟨429, "Requests below than percentage"⟩ ∧
      (RoundTrip r limitG percentageG delayG ip nowMs upstream).forwarded = false ∧
      0 < percentageG) ∧
    ((r.ExceedsLimit ip nowMs).1 = false →
      (r.ExceedsLimit ip nowMs).2.AbovePercentage ip limitG percentageG nowMs = true →
      (RoundTrip r limitG percentageG delayG ip nowMs upstream).res = upstream ∧
      (RoundTrip r limitG percentageG delayG ip nowMs upstream).forwarded = true) := by
  refine ⟨?_, ?_, ?_⟩
  · intro h
    simp [RoundTrip, h]
  · intro h1 h2
    refine ⟨by simp [RoundTrip, h1, h2], by simp [RoundTrip, h1, h2], ?_⟩
    by_contra hple
    push_neg at hple
    have hwf1 : ((r.store.Increment ip nowMs).2).WF := WF_increment _ _ _ hWF
    have hav := (available_bounds _ ip nowMs hwf1).1
    have habove := abovePercentage_nonpos ⟨(r.store.Increment ip nowMs).2⟩ ip limitG
      percentageG nowMs hple hlim hav
    simp only [RateLimiter.ExceedsLimit] at h2
    rw [habove] at h2
    exact absurd h2 (by simp)
  · intro h1 h2
    constructor
    · simp only [RoundTrip, h1, h2]
      cases upstream <;> simp
    · simp only [RoundTrip, h1, h2]
      cases upstream <;> simp

/-- Witness for C2: fresh store with limit 10 and threshold 0; the request
is forwarded and the upstream response returned. -/
theorem claim_C2_witness :
    (RoundTrip { store := mkStore 10 } 10 0 7 "9.9.9.9" 0
        (Except.ok ⟨200, "hello"⟩)).res = Except.ok ⟨200, "hello"⟩ ∧
    (RoundTrip { store := mkStore 10 } 10 0 7 "9.9.9.9" 0
        (Except.ok ⟨200, "hello"⟩)).forwarded = true := by
  have hfalse : (({ store := mkStore 10 } : RateLimiter).ExceedsLimit "9.9.9.9" 0).1 = false := by
    decide
  have hav : (0 : Int) ≤
      (({ store := mkStore 10 } : RateLimiter).ExceedsLimit
        "9.9.9.9" 0).2.store.Available "9.9.9.9" 0 := by
    decide
  have htrue := abovePercentage_nonpos
    (({ store := mkStore 10 } : RateLimiter).ExceedsLimit "9.9.9.9" 0).2
    "9.9.9.9" 10 0 0 le_rfl (by decide) hav
  exact (claim_C2 { store := mkStore 10 } 10 0 7 "9.9.9.9" 0 (Except.ok ⟨200, "hello"⟩)
    (by refine ⟨by decide, ?_⟩; intro kv hkv; simp [mkStore] at hkv) (by decide)).2.2
    hfalse htrue

/-- Keys of a filtered storage list are among the original keys. -/
theorem mem_map_fst_filter {l : List (String × Entry)} {p : String × Entry → Bool}
    {key : String} (h : key ∈ (l.filter p).map Prod.fst) : key ∈ l.map Prod.fst := by
  obtain ⟨kv, hkv, rfl⟩ := List.mem_map.mp h
  exact List.mem_map_of_mem _ (List.mem_of_mem_filter hkv)

/-- On a storage list without duplicate keys, filtering acts pointwise on
the lookup: the looked-up entry survives exactly when the predicate keeps
it. -/
theorem storageGet_filter {l : List (String × Entry)} (p : String × Entry → Bool)
    (key : String) (hnd : (l.map Prod.fst).Nodup) :
    storageGet (l.filter p) key =
      (match storageGet l key with
       | some e => if p (key, e) then some e else none
       | none => none) := by
  induction l with
  | nil => rfl
  | cons hd rest ih =>
      obtain ⟨k, v⟩ := hd
      simp only [List.map_cons, List.nodup_cons] at hnd
      obtain ⟨hk_not, hnd_rest⟩ := hnd
      by_cases hk : k = key
      · subst hk
        by_cases hp : p (k, v)
        · simp [List.filter_cons, hp, storageGet]
        · simp only [List.filter_cons, hp, Bool.false_eq_true, if_neg, storageGet,
            if_pos rfl, reduceCtorEq]
          have hnone : storageGet (rest.filter p) k = none := by
            rw [storageGet_eq_none_iff]
            intro hmem
            exact hk_not (mem_map_fst_filter hmem)
          simp [hnone, hp]
      · have hrec := ih hnd_rest
        by_cases hp : p (k, v)
        · simp [List.filter_cons, hp, storageGet, hk, hrec]
        · simp [List.filter_cons, hp, storageGet, hk, hrec]

/-- The keys listed by a stats snapshot are exactly the storage keys. -/
theorem stats_keys (s : InMemoryStore) (nowMs : Nat) :
    (s.Stats nowMs).map Prod.fst = s.storage.map Prod.fst := by
  unfold InMemoryStore.Stats
  rw [List.map_map]
  rfl

/-- A key is among the storage keys exactly when its lookup succeeds. -/
theorem mem_map_fst_iff_storageGet {l : List (String × Entry)} {key : String} :
    key ∈ l.map Prod.fst ↔ storageGet l key ≠ none := by
  rw [Ne, storageGet_eq_none_iff]
  tauto

/-- Claim C8: one tick of the background sweep removes exactly the entries
whose last-touched timestamp precedes now - 30s: lookup through the swept
store returns the old entry exactly when it had not expired, and a key is
present in a stats snapshot taken after the sweep exactly when it was
tracked and not yet expired at sweep time.  (The 500 ms cadence of the
ticker is wall-clock scheduling; the per-tick behavior is what is modelled,
on stores with duplicate-free key sets as Go maps guarantee.) -/
theorem claim_C8 (s : InMemoryStore) (nowMs nowMs2 : Nat) (key : String)
    (hnd : (s.storage.map Prod.fst).Nodup) :
    (storageGet (s.expiryStep nowMs).storage key =
      (match storageGet s.storage key with
       | some e => if e.Expired nowMs then none else some e
       | none => none)) ∧
    (key ∈ ((s.expiryStep nowMs).Stats nowMs2).map Prod.fst ↔
      ∃ e, storageGet s.storage key = some e ∧ e.Expired nowMs = false) := by
  have hfilter := storageGet_filter (fun kv => ! kv.2.Expired nowMs) key hnd
  constructor
  · show storageGet (s.storage.filter (fun kv => ! kv.2.Expired nowMs)) key = _
    rw [hfilter]
    cases hg : storageGet s.storage key with
    | none => rfl
    | some e =>
        dsimp only
        by_cases he : e.Expired nowMs <;> simp [he]
  · rw [stats_keys, mem_map_fst_iff_storageGet]
    show storageGet (s.storage.filter (fun kv => ! kv.2.Expired nowMs)) key ≠ none ↔ _
    rw [hfilter]
    cases hg : storageGet s.storage key with
    | none => simp
    | some e =>
        dsimp only
        by_cases he : e.Expired nowMs <;> simp [he]

/-- Witness for C8: a store with one entry touched at time 0, swept at
40000 ms (expired) and read at 40001 ms. -/
theorem claim_C8_witness :
    (storageGet ((InMemoryStore.mk 5 (-1) [("10.0.0.1", ⟨⟨0, 200, 5, 5, 0⟩, 0⟩)]).expiryStep
        40000).storage "10.0.0.1" =
      (match storageGet [("10.0.0.1", (⟨⟨0, 200, 5, 5, 0⟩, 0⟩ : Entry))] "10.0.0.1" with
       | some e => if e.Expired 40000 then none else some e
       | none => none)) ∧
    ("10.0.0.1" ∈ (((InMemoryStore.mk 5 (-1) [("10.0.0.1", ⟨⟨0, 200, 5, 5, 0⟩, 0⟩)]).expiryStep
        40000).Stats 40001).map Prod.fst ↔
      ∃ e, storageGet [("10.0.0.1", (⟨⟨0, 200, 5, 5, 0⟩, 0⟩ : Entry))] "10.0.0.1" = some e ∧
        e.Expired 40000 = false) :=
  claim_C8 (InMemoryStore.mk 5 (-1) [("10.0.0.1", ⟨⟨0, 200, 5, 5, 0⟩, 0⟩)]) 40000 40001
    "10.0.0.1" (by simp)
